import Mathlib

/-!
Verification of the bunim package manager core (manifest parser and
SAT-based dependency resolver) against its specification.

The TypeScript sources are shallowly embedded over `List Char`
(one JavaScript string = one list of characters).  Regex-driven matching
in the source is embedded by hand-written matchers that implement the
semantics of the concrete regular expressions appearing in the code
(leftmost match, greedy and lazy quantifier behaviour, restart at the
next character on failure), each documented with the regex it models.
External collaborators (filesystem scans, the toolchain probe, the
Bun.semver library, the registry, the GitHub lookup) are parameters of a
`ResolverEnv` record; the boolean-sat solver library is modelled by an
executable exhaustive solver.
-/

/-- JavaScript strings are modelled as lists of characters. -/
abbrev Str := List Char

/-- The double-quote character. -/
def qt : Char := Char.ofNat 34

/-- The backtick character. -/
def bq : Char := Char.ofNat 96

/-- The hash character, which starts a manifest comment. -/
def hashCh : Char := Char.ofNat 35

/-- The opening curly brace character. -/
def lbr : Char := Char.ofNat 123

/-- The closing curly brace character. -/
def rbr : Char := Char.ofNat 125

/-- Whitespace as matched by the regex class used in the source
(space, tab, carriage return, newline; lines are split on newline first,
so the newline case never appears inside a line). -/
def isWs (c : Char) : Bool :=
  c = ' ' || c = '\t' || c = '\r' || c = '\n'

/-- A word character, the regex class used in the key of a
key = value manifest line. -/
def isWordChar (c : Char) : Bool :=
  ('a' ≤ c && c ≤ 'z') || ('A' ≤ c && c ≤ 'Z') || ('0' ≤ c && c ≤ '9') || c = '_'

/-- JavaScript `String.prototype.trim` (ASCII whitespace model). -/
def jsTrim (l : Str) : Str :=
  ((l.dropWhile isWs).reverse.dropWhile isWs).reverse

/-- JavaScript `String.prototype.split(c)` for a one-character separator:
splits at every occurrence, keeping empty fields. -/
def splitOnChar (c : Char) : Str → List Str
  | [] => [[]]
  | a :: t =>
    if a = c then
      [] :: splitOnChar c t
    else
      match splitOnChar c t with
      | [] => [[a]]
      | f :: fs => (a :: f) :: fs

/-- JavaScript `String.prototype.includes(pat)`: substring test. -/
def containsSub (s pat : Str) : Bool :=
  match s with
  | [] => pat.isPrefixOf []
  | _ :: t => pat.isPrefixOf s || containsSub t pat

/-- Association-list lookup (JavaScript `Map.get` / object property read). -/
def lookupA {α : Type} (l : List (Str × α)) (k : Str) : Option α :=
  match l with
  | [] => none
  | (k', v) :: t => if k' = k then some v else lookupA t k

/-- Association-list update (JavaScript `Map.set` / object property write):
overwrites an existing binding in place, otherwise appends. -/
def setAssoc {α : Type} (l : List (Str × α)) (k : Str) (v : α) : List (Str × α) :=
  match l with
  | [] => [(k, v)]
  | (k', v') :: t => if k' = k then (k, v) :: t else (k', v') :: setAssoc t k v

/-- Association-list lookup with natural-number keys (the resolver
version table). -/
def lookupN {α : Type} (l : List (Nat × α)) (k : Nat) : Option α :=
  match l with
  | [] => none
  | (k', v) :: t => if k' = k then some v else lookupN t k

/-- JavaScript `[...new Set(xs)]`: deduplication keeping first
occurrences (`seen` collects the elements already emitted). -/
def dedupFirstGo (seen : List Str) : List Str → List Str
  | [] => []
  | x :: t => if x ∈ seen then dedupFirstGo seen t else x :: dedupFirstGo (x :: seen) t

/-- JavaScript `[...new Set(xs)]`. -/
def dedupFirst (l : List Str) : List Str := dedupFirstGo [] l

/-- Stable insertion used to model JavaScript `Array.prototype.sort`
with a comparator: `le x y` means the comparator puts `x` not after `y`. -/
def insertCmp (le : Str → Str → Bool) (x : Str) : List Str → List Str
  | [] => [x]
  | y :: t => if le x y then x :: y :: t else y :: insertCmp le x t

/-- Stable sort modelling JavaScript `Array.prototype.sort` with a
comparator (the ECMAScript specification requires a stable,
comparator-consistent order, which this insertion sort produces). -/
def sortCmp (le : Str → Str → Bool) : List Str → List Str
  | [] => []
  | x :: t => insertCmp le x (sortCmp le t)

/-- JavaScript `Array.prototype.join(sep)` restricted to a one-character
separator (used for multi-line manifest values, joined with a space). -/
def joinWith (c : Char) : List Str → Str
  | [] => []
  | [x] => x
  | x :: t => x ++ c :: joinWith c t

/-! ## Manifest parser embedding (src/parser/nimbleParser.ts) -/

/-- Comment stripping per physical line, modelling
`line.replace(/\s*#.*$/, '')`: everything from the first hash character
to the end of the line is removed, together with the run of whitespace
immediately before it.  `go` carries the already-scanned prefix reversed. -/
def stripCommentGo (acc : Str) : Str → Str
  | [] => acc.reverse
  | c :: t => if c = hashCh then (acc.dropWhile isWs).reverse else stripCommentGo (c :: acc) t

/-- `line.replace(/\s*#.*$/, '')`. -/
def stripComment (l : Str) : Str := stripCommentGo [] l

/-- The literal "requires". -/
def requiresLit : Str := "requires".data

/-- After the literal "requires", the regex `\s+(.+)$` must match:
at least one whitespace character, then a non-empty remainder (the
group).  With a greedy `\s+` the group starts after the maximal
whitespace run; when nothing follows that run, `\s+` backtracks one
character and the group is that single whitespace character. -/
def requiresTail (rest : Str) : Option Str :=
  let w := rest.takeWhile isWs
  let r := rest.dropWhile isWs
  if w.isEmpty then none
  else if !r.isEmpty then some r
  else if 2 ≤ w.length then some [w.getLastD ' ']
  else none

/-- `line.match(/requires\s+(.+)$/)` on the trimmed line: the regex is
unanchored, so matching is attempted at every position in turn. -/
def requiresMatch : Str → Option Str
  | [] => none
  | c :: t =>
    if requiresLit.isPrefixOf (c :: t) then
      match requiresTail ((c :: t).drop requiresLit.length) with
      | some g => some g
      | none => requiresMatch t
    else requiresMatch t

/-- The literal "feature". -/
def featureLit : Str := "feature".data

/-- After the literal "feature", the regex `\s+"([^"]+)"\s*:` must match:
whitespace, a double-quoted non-empty name, optional whitespace, and a
colon. -/
def featureTail (rest : Str) : Option Str :=
  let w := rest.takeWhile isWs
  let r := rest.dropWhile isWs
  if w.isEmpty then none
  else
    match r with
    | c :: r1 =>
      if c = qt then
        let name := r1.takeWhile (· ≠ qt)
        let r2 := r1.drop name.length
        if name.isEmpty then none
        else
          match r2 with
          | _ :: r3 =>
            match r3.dropWhile isWs with
            | ':' :: _ => some name
            | _ => none
          | [] => none
      else none
    | [] => none

/-- `line.match(/feature\s+"([^"]+)"\s*:/)` on the trimmed line. -/
def featureMatch : Str → Option Str
  | [] => none
  | c :: t =>
    if featureLit.isPrefixOf (c :: t) then
      match featureTail ((c :: t).drop featureLit.length) with
      | some g => some g
      | none => featureMatch t
    else featureMatch t

/-- At one position, the regex `(\w+)\s*=\s*(.+)` requires a maximal
word-character run (backtracking to a shorter run can never help,
because the character following the shorter run is again a word character,
not `=`), optional whitespace, `=`, optional whitespace, and a
non-empty remainder; when only whitespace follows the `=`, the greedy
`\s*` gives one character back to `(.+)`. -/
def kvAt (l : Str) : Option (Str × Str) :=
  let w := l.takeWhile isWordChar
  if w.isEmpty then none
  else
    match (l.drop w.length).dropWhile isWs with
    | '=' :: r =>
      let ws := r.takeWhile isWs
      let v := r.dropWhile isWs
      if !v.isEmpty then some (w, v)
      else if !ws.isEmpty then some (w, [ws.getLastD ' '])
      else none
    | _ => none

/-- `line.match(/(\w+)\s*=\s*(.+)/)` on the trimmed line, attempted at
every start position in turn. -/
def kvMatch : Str → Option (Str × Str)
  | [] => none
  | c :: t =>
    match kvAt (c :: t) with
    | some g => some g
    | none => kvMatch t

/-- `part.match(/`([^`]+)`/)`: the first backtick-delimited non-empty
segment.  On failure the scan restarts at the next character. -/
def bqMatch : Str → Option Str
  | [] => none
  | c :: t =>
    if c = bq then
      let seg := t.takeWhile (· ≠ bq)
      if !seg.isEmpty && !(t.drop seg.length).isEmpty then some seg else bqMatch t
    else bqMatch t

/-- `part.match(/"([^"]+)"/)`: the first double-quote-delimited
non-empty segment. -/
def qtMatch : Str → Option Str
  | [] => none
  | c :: t =>
    if c = qt then
      let seg := t.takeWhile (· ≠ qt)
      if !seg.isEmpty && !(t.drop seg.length).isEmpty then some seg else qtMatch t
    else qtMatch t

/-- The comparison operators of the version-suffix regex, in the order
the alternation lists them. -/
def opList : List Str := [">=".data, ">".data, "<=".data, "<".data, "==".data, "!=".data]

/-- One alternative of `(?:>=|>|<=|<|==|!=)\s*[^,]+`: the operator as a
prefix, then greedy whitespace, then at least one non-comma character;
when only whitespace remains, the greedy `\s*` gives its characters
back to `[^,]+`, so the group is the operator plus the whitespace run. -/
def opTailTry (op rest : Str) : Option Str :=
  if op.isPrefixOf rest then
    let r := rest.drop op.length
    let w := r.takeWhile isWs
    let body := (r.dropWhile isWs).takeWhile (· ≠ ',')
    if !body.isEmpty then some (op ++ w ++ body)
    else if !w.isEmpty then some (op ++ w)
    else none
  else none

/-- The alternation tried left to right. -/
def opTail (rest : Str) : Option Str :=
  (opList.map (opTailTry · rest)).foldl (fun a b => a <|> b) none

/-- At one position, the regex
`[`"][^`"]*[`"]\s*((?:>=|>|<=|<|==|!=)\s*[^,]+)`: a quote-class
character, a maximal run of non-quote-class characters, a closing
quote-class character, optional whitespace, then the operator group. -/
def versionSuffixAt (l : Str) : Option Str :=
  match l with
  | c :: t =>
    if c = qt || c = bq then
      let run := t.takeWhile (fun x => x ≠ qt && x ≠ bq)
      match t.drop run.length with
      | _ :: after => opTail (after.dropWhile isWs)
      | [] => none
    else none
  | [] => none

/-- `part.match(/[`"][^`"]*[`"]\s*((?:>=|>|<=|<|==|!=)\s*[^,]+)/)`,
attempted at every start position in turn. -/
def versionSuffixMatch : Str → Option Str
  | [] => none
  | c :: t =>
    match versionSuffixAt (c :: t) with
    | some g => some g
    | none => versionSuffixMatch t

/-- A parsed manifest value (`parseValue` returns `any` in the source:
a string, an array of strings, or a string map used for `bin`). -/
inductive Value : Type
  | str (s : Str)
  | arr (xs : List Str)
  | obj (xs : List (Str × Option Str))
deriving DecidableEq

/-- Removes every double quote, modelling `.replace(/"/g, '')`. -/
def stripAllQuotes (l : Str) : Str := l.filter (· ≠ qt)

/-- Array-literal body: `content.split(',').map(item => item.trim().replace(/"/g, ''))`. -/
def arrItems (content : Str) : List Str :=
  (splitOnChar ',' content).map (fun item => stripAllQuotes (jsTrim item))

/-- One `key: value` pair of a brace object literal:
`pair.trim().split(':')` and the first two fields, each trimmed and
unquoted; a missing second field is JavaScript `undefined`. -/
def objPair (pair : Str) : Str × Option Str :=
  let parts := (splitOnChar ':' (jsTrim pair)).map (fun x => stripAllQuotes (jsTrim x))
  (parts.headD [], parts.get? 1)

/-- `NimbleParser.parseValue` (nimbleParser.ts lines 171-210). -/
def parseValue (value : Str) : Value :=
  if value.headD ' ' = qt && value.getLastD ' ' = qt then
    -- value.substring(1, value.length - 1); for the one-character string
    -- a double quote alone, JavaScript substring swaps its arguments and
    -- returns the quote itself
    if 2 ≤ value.length then .str ((value.drop 1).dropLast) else .str value
  else if ('@' :: ['[']).isPrefixOf value then
    -- value.substring(2, value.length - 1); for the two-character value
    -- the JavaScript substring swaps its arguments and yields "["
    let content :=
      if 3 ≤ value.length then jsTrim ((value.drop 2).dropLast) else ['[']
    if content.isEmpty then .arr [] else .arr (arrItems content)
  else if value.headD ' ' = '[' && value.getLastD ' ' = ']' then
    let content := jsTrim ((value.drop 1).dropLast)
    if content.isEmpty then .arr [] else .arr (arrItems content)
  else if value.headD ' ' = lbr && value.getLastD ' ' = rbr then
    let content := jsTrim ((value.drop 1).dropLast)
    if content.isEmpty then .obj []
    else .obj ((splitOnChar ',' content).map objPair)
  else .str value

/-- A parsed dependency specification (`NimbleDependency` in the source). -/
structure NimbleDependency : Type where
  name : Str
  version : Str
  url : Str
deriving DecidableEq

/-- `dep.trim().replace(/^"|"$/g, '')`: with the global flag the regex
removes one leading and one trailing double quote, each at most once. -/
def stripWrapQuotes (l : Str) : Str :=
  let l1 := if l.headD ' ' = qt then l.drop 1 else l
  if l1.getLastD ' ' = qt then l1.dropLast else l1

/-- The cleaning normalisation applied to every dependency text
(nimbleParser.ts line 219). -/
def cleanDep (dep : Str) : Str := jsTrim (stripWrapQuotes (jsTrim dep))

/-- The separator regex `\s+>=\s+` matches at the head of `l`:
at least one whitespace character, the literal, and at least one more
whitespace character.  The greedy runs cannot backtrack usefully
because the literal is not whitespace. -/
def sepMatch (l : Str) : Bool :=
  match l with
  | [] => false
  | c :: t =>
    isWs c &&
      (let r := t.dropWhile isWs
       (">=".data).isPrefixOf r &&
         match r.drop 2 with
         | d :: _ => isWs d
         | [] => false)

/-- The remainder after the separator match at the head of `l`
(both whitespace runs are consumed greedily). -/
def sepRest (l : Str) : Str :=
  ((l.dropWhile isWs).drop 2).dropWhile isWs

/-- Field scan of `cleanDep.split(/\s+>=\s+/)`: the separator regex is
matched at every position in turn (restart at the next character on
failure, which is sound because a failing run start fails at every
position inside the same whitespace run); `acc` carries the current
field reversed.  The fuel argument makes the recursion structural; one
unit is spent per consumed character and a separator consumes at least
three, so any fuel of at least the input length is exact. -/
def splitGeGo (fuel : Nat) (acc : Str) (l : Str) : List Str :=
  match fuel, l with
  | _, [] => [acc.reverse]
  | 0, rest => [acc.reverse ++ rest]
  | fuel + 1, c :: t =>
    if sepMatch (c :: t) then acc.reverse :: splitGeGo fuel [] (sepRest (c :: t))
    else splitGeGo fuel (c :: acc) t

/-- `cleanDep.split(/\s+>=\s+/)` (nimbleParser.ts line 240). -/
def splitGe (l : Str) : List Str := splitGeGo l.length [] l

/-- The literal URL scheme marker tested by
`cleanDep.includes('https://')`. -/
def httpsLit : Str := "https://".data

/-- Core of the tail of the URL regex, after whitespace and the optional
backtick have been consumed: `(?:>=\s+(.+))?$`.  The group is taken
greedily when it can match; `\s+` is greedy and gives one character
back to `(.+)` when nothing else remains. -/
def urlTailCore (u : Str) : Option (Option Str) :=
  if u.isEmpty then some none
  else if (">=".data).isPrefixOf u then
    let r := u.drop 2
    let w := r.takeWhile isWs
    let rest := r.dropWhile isWs
    if w.isEmpty then none
    else if !rest.isEmpty then some (some rest)
    else if 2 ≤ w.length then some (some [w.getLastD ' '])
    else none
  else none

/-- The tail `\s*`?\s*(?:>=\s+(.+))?$` of the URL regex
`/`?\s*(https:\/\/.+?)\s*`?\s*(?:>=\s+(.+))?$/`: greedy whitespace, an
optional backtick, greedy whitespace, then `urlTailCore`.  Declining the
optional backtick when it is present can never rescue a failed match,
because the remainder would then start with that backtick. -/
def urlTail (t : Str) : Option (Option Str) :=
  let t1 := t.dropWhile isWs
  match t1 with
  | c :: r => if c = bq then urlTailCore (r.dropWhile isWs) else urlTailCore t1
  | [] => urlTailCore []

/-- The lazy `.+?` of the URL regex: characters after the scheme are
consumed one at a time (at least one), and after each character the
tail regex is tried on the remainder; the first success wins. -/
def urlScan (pre : Str) : Str → Option (Str × Option Str)
  | [] => none
  | c :: rest =>
    match urlTail rest with
    | some g => some ((c :: pre).reverse, g)
    | none => urlScan (c :: pre) rest

/-- `cleanDep.match(/`?\s*(https:\/\/.+?)\s*`?\s*(?:>=\s+(.+))?$/)`:
the first position where the literal scheme occurs and the lazy scan
succeeds.  The optional leading backtick and whitespace do not affect
the captured groups, so they are not tracked. -/
def urlRegexMatch : Str → Option (Str × Option Str)
  | [] => none
  | c :: t =>
    if httpsLit.isPrefixOf (c :: t) then
      match urlScan [] ((c :: t).drop httpsLit.length) with
      | some (pre, g) => some (httpsLit ++ pre, g)
      | none => urlRegexMatch t
    else urlRegexMatch t

/-- `name.replace(/\.git$/, '')`. -/
def gitStrip (n : Str) : Str :=
  if (".git".data).isSuffixOf n then n.dropLast.dropLast.dropLast.dropLast else n

/-- `name.replace(/\[.*\]/, '')`: the greedy `.*` spans from the first
opening bracket to the last closing bracket after it; without such a
pair the name is unchanged. -/
def bracketStrip (n : Str) : Str :=
  match n.findIdx? (· = '[') with
  | none => n
  | some i =>
    match (n.reverse.findIdx? (· = ']')).map (fun j => n.length - 1 - j) with
    | none => n
    | some j => if i < j then n.take i ++ n.drop (j + 1) else n

/-- `url.split('/').pop()?.replace(/\.git$/, '') || ''` followed by the
bracket strip (nimbleParser.ts lines 234-236). -/
def urlToName (url : Str) : Str :=
  bracketStrip (gitStrip ((splitOnChar '/' url).getLastD []))

/-- `NimbleParser.parseDependencies` applied to one dependency text
(nimbleParser.ts lines 216-250). -/
def parseDependency (dep : Str) : NimbleDependency :=
  let cd := cleanDep dep
  if containsSub cd httpsLit then
    match urlRegexMatch cd with
    | some (url, vOpt) =>
      { name := urlToName url, version := vOpt.getD ("*".data), url := url }
    | none => { name := [], version := "*".data, url := [] }
  else
    let parts := splitGe cd
    { name := parts.headD [], version := (parts.get? 1).getD ("*".data), url := [] }

/-- `NimbleParser.parseDependencies` over a list of dependency texts. -/
def parseDependencies (deps : List Str) : List NimbleDependency :=
  deps.map parseDependency

/-- The parsed manifest (`NimblePackage` in the source; scalar fields
hold whatever `parseValue` produced, mirroring the dynamically typed
result record). -/
structure NimblePackage : Type where
  name : Option Value := none
  version : Option Value := none
  author : Option Value := none
  description : Option Value := none
  license : Option Value := none
  srcDir : Option Value := none
  src : Option Value := none
  bin : Option Value := none
  skipDirs : Option Value := none
  dependencies : List NimbleDependency := []
  features : Option (List (Str × List NimbleDependency)) := none
deriving DecidableEq

/-- The mutable state of the `parseContent` line loop. -/
structure PState : Type where
  result : List (Str × Value) := []
  dependencies : List Str := []
  features : List (Str × List Str) := []
  currentKey : Option Str := none
  currentValue : List Str := []
  currentFeature : Option Str := none
  inBlock : Bool := true
deriving DecidableEq

/-- Flushing a pending key = value accumulation:
`result[currentKey] = parseValue(currentValue.join(' ').trim())`. -/
def flushKey (st : PState) : PState :=
  match st.currentKey with
  | none => st
  | some k =>
    { st with result := setAssoc st.result k (parseValue (jsTrim (joinWith ' ' st.currentValue))) }

/-- Extraction of one dependency text from one comma-separated token of a
requires statement (nimbleParser.ts lines 69-83): backtick quoting is
preferred, double quoting is the fallback, and a version-comparison
suffix found after the closing quote is appended. -/
def extractSpec (part : Str) : Option Str :=
  let quoted := match bqMatch part with
    | some q => some q
    | none => qtMatch part
  match quoted with
  | none => none
  | some q =>
    let dep := jsTrim q
    let dep := match versionSuffixMatch part with
      | some g => dep ++ ' ' :: jsTrim g
      | none => dep
    if dep.isEmpty then none else some dep

/-- All dependency texts of one requires statement: the argument is
split on commas and each token contributes its extracted text, if any
(nimbleParser.ts lines 66-95). -/
def requiresSpecs (depsStr : Str) : List Str :=
  (splitOnChar ',' depsStr).filterMap extractSpec

/-- Appending freshly extracted dependency texts to the feature table
(`if (!features[f]) features[f] = []; features[f].push(dep)`). -/
def pushFeature (features : List (Str × List Str)) (f : Str) (specs : List Str) :
    List (Str × List Str) :=
  setAssoc features f ((lookupA features f).getD [] ++ specs)

/-- Processing of one in-block line of `parseContent`
(nimbleParser.ts lines 61-130): a requires statement, a feature header,
a key = value start, or a continuation of the current multi-line value,
checked in that order on the trimmed line. -/
def pstep (st : PState) (line : Str) : PState :=
  let tl := jsTrim line
  match requiresMatch tl with
  | some depsStr =>
    let specs := requiresSpecs depsStr
    match st.currentFeature with
    | some f => { st with features := pushFeature st.features f specs }
    | none => { st with dependencies := st.dependencies ++ specs }
  | none =>
    match featureMatch tl with
    | some fname =>
      let st := flushKey st
      { st with
        currentKey := none, currentValue := [],
        currentFeature := some fname,
        features := setAssoc st.features fname [] }
    | none =>
      match kvMatch tl with
      | some (k, v) =>
        let st := flushKey st
        { st with currentKey := some k, currentValue := [v] }
      | none =>
        match st.currentKey with
        | some _ => { st with currentValue := st.currentValue ++ [tl] }
        | none => st

/-- The line loop of `parseContent`: `begin` re-enters the block, `end`
flushes and stops (the `break`), lines outside the block are skipped,
and every other line is handed to `pstep`. -/
def processLines (st : PState) : List Str → PState
  | [] => st
  | l :: ls =>
    if jsTrim l = "begin".data then processLines { st with inBlock := true } ls
    else if jsTrim l = "end".data then flushKey st
    else if !st.inBlock then processLines st ls
    else processLines (pstep st l) ls

/-- `Array.isArray` dispatch of `parseDependencies(result.dependencies || [])`
when the collected dependency list is empty: only an array value parses. -/
def valueDeps (v : Option Value) : List Str :=
  match v with
  | some (.arr xs) => xs
  | _ => []

/-- `Object.entries` over a manifest value, as used on `result.features`
when the feature table is empty but a features key was parsed: a string
enumerates indexed characters, an array indexed elements, an object its
pairs.  Every entry value is a string (or undefined), so the subsequent
`parseDependencies` of a non-array yields the empty list. -/
def valueEntries (v : Value) : List (Str × List Str) :=
  match v with
  | .str s => (List.range s.length).map (fun i => ((Nat.repr i).data, []))
  | .arr xs => (List.range xs.length).map (fun i => ((Nat.repr i).data, []))
  | .obj ps => ps.map (fun p => (p.1, []))

/-- `NimbleParser.parseContent` (nimbleParser.ts lines 29-169). -/
def parseContent (content : Str) : NimblePackage :=
  let lines := ((splitOnChar '\n' content).map stripComment).filter
    (fun l => !(jsTrim l).isEmpty)
  let st := processLines {} lines
  let st := flushKey st
  let deps :=
    if !st.dependencies.isEmpty then st.dependencies
    else valueDeps (lookupA st.result ("dependencies".data))
  let rawFeatures : List (Str × List Str) :=
    if !st.features.isEmpty then st.features
    else match lookupA st.result ("features".data) with
      | some v => valueEntries v
      | none => []
  let parsedFeatures := rawFeatures.map (fun p => (p.1, parseDependencies p.2))
  { name := lookupA st.result ("name".data)
    version := lookupA st.result ("version".data)
    author := lookupA st.result ("author".data)
    description := lookupA st.result ("description".data)
    license := lookupA st.result ("license".data)
    srcDir := lookupA st.result ("srcDir".data)
    src := lookupA st.result ("src".data)
    bin := lookupA st.result ("bin".data)
    skipDirs := lookupA st.result ("skipDirs".data)
    dependencies := parseDependencies deps
    features := if parsedFeatures.isEmpty then none else some parsedFeatures }

/-! ## Dependency resolver embedding (src/deps/satDependencyResolver.ts) -/

/-- The external collaborators of `SatDependencyResolver`, abstracted as
pure parameters: the local package directory scan, the toolchain probe
(`getNimVersion`), the external `Bun.semver` library (`satisfies` may
throw, modelled by `Except`), the registry lookup and the GitHub
package-name fetch. -/
structure ResolverEnv : Type where
  localVersion : Str → Option Str
  nimVersion : Option Str
  semverSatisfies : Str → Str → Except Unit Bool
  semverOrder : Str → Str → Int
  registryUrl : Str → Option Str
  githubName : Str → Option Str

/-- The literal name of the toolchain dependency. -/
def nimLit : Str := "nim".data

/-- `getLocalPackageVersion` (satDependencyResolver.ts lines 245-299):
the toolchain probe for the name "nim", otherwise the external
directory scan. -/
def getLocalPackageVersion (env : ResolverEnv) (packageName : Str) : Option Str :=
  if packageName = nimLit then env.nimVersion else env.localVersion packageName

/-- `getAvailableVersions` (lines 134-157): the locally discovered
version if any, the sentinel "0.0.0" otherwise, deduplicated and sorted
descending by `Bun.semver.order`. -/
def getAvailableVersions (env : ResolverEnv) (packageName : Str) : List Str :=
  let versions := match getLocalPackageVersion env packageName with
    | some v => [v]
    | none => []
  let versions := if versions.isEmpty then ["0.0.0".data] else versions
  sortCmp (fun a b => env.semverOrder b a ≤ 0) (dedupFirst versions)

/-- `collectAllDependencies` with `collectVersions` (lines 101-132):
one entry per distinct direct dependency name, in first-occurrence
order (the per-call visited set has no effect because nested
dependencies are not walked). -/
def collectAllDependencies (env : ResolverEnv) (pkg : NimblePackage) :
    List (Str × List Str) :=
  pkg.dependencies.foldl
    (fun allDeps dep =>
      if (lookupA allDeps dep.name).isSome then allDeps
      else allDeps ++ [(dep.name, getAvailableVersions env dep.name)])
    []

/-- The pairwise at-most-one clauses of `encodeExactlyOne`
(lines 165-171), in the i-outer j-inner order of the source. -/
def pairwiseNeg : List Nat → List (List Int)
  | [] => []
  | v :: rest => rest.map (fun w => [-(v : Int), -(w : Int)]) ++ pairwiseNeg rest

/-- `encodeExactlyOne` (lines 159-174): the at-least-one clause followed
by the pairwise exclusions. -/
def encodeExactlyOne (vars : List Nat) : List (List Int) :=
  (vars.map (fun v => (v : Int))) :: pairwiseNeg vars

/-- The key `name@version` of the variable table. -/
def varKey (name version : Str) : Str := name ++ '@' :: version

/-- The per-run variable allocation state of `resolve`. -/
structure SatState : Type where
  nextVarId : Nat := 1
  variableMap : List (Str × Nat) := []
  versionMap : List (Nat × (Str × Str)) := []
deriving DecidableEq

/-- Variable allocation for one package (lines 53-61): one fresh
variable per candidate version, recorded in both tables. -/
def allocVersions (depName : Str) (versions : List Str) (st : SatState) :
    SatState × List Nat :=
  versions.foldl
    (fun (acc : SatState × List Nat) version =>
      let varId := acc.1.nextVarId
      ({ nextVarId := varId + 1,
         variableMap := setAssoc acc.1.variableMap (varKey depName version) varId,
         versionMap := acc.1.versionMap ++ [(varId, (depName, version))] },
       acc.2 ++ [varId]))
    (st, [])

/-- The exactly-one encoding loop of `resolve` (lines 51-69): variables
are allocated per package in table order; two or more candidates emit
the exactly-one clause group, a single candidate emits a unit clause. -/
def buildVars (allDeps : List (Str × List Str)) : SatState × List (List Int) :=
  allDeps.foldl
    (fun (acc : SatState × List (List Int)) entry =>
      let (st, vars) := allocVersions entry.1 entry.2 acc.1
      let clauses :=
        if 1 < vars.length then acc.2 ++ encodeExactlyOne vars
        else match vars with
          | [v] => acc.2 ++ [[(v : Int)]]
          | _ => acc.2
      (st, clauses))
    ({}, [])

/-- The candidate filter of `encodeDependencyConstraints`
(lines 207-214): a wildcard or empty range accepts everything;
otherwise `Bun.semver.satisfies(version, range)` decides, and when that
call throws, exact string equality is the fallback. -/
def rangeSatisfied (env : ResolverEnv) (version range : Str) : Bool :=
  if range = "*".data || range = [] then true
  else match env.semverSatisfies version range with
    | .ok b => b
    | .error _ => version = range

/-- `encodeDependencyConstraints` (lines 176-228): the toolchain
dependency contributes no clauses (its version check only logs a
warning); for every other dependency the candidate versions satisfying
the range are mapped through the variable table and, when any remain,
one at-least-one clause is emitted. -/
def encodeDependencyConstraints (env : ResolverEnv) (dep : NimbleDependency)
    (allDeps : List (Str × List Str)) (variableMap : List (Str × Nat)) :
    List (List Int) :=
  if dep.name = nimLit then []
  else
    let versions := (lookupA allDeps dep.name).getD []
    let validVersions := versions.filter (fun v => rangeSatisfied env v dep.version)
    let validVars := validVersions.filterMap (fun v => lookupA variableMap (varKey dep.name v))
    if !validVars.isEmpty then [validVars.map (fun v => (v : Int))] else []

/-- All assignments of `n` boolean variables (variable `i` is entry
`i - 1`). -/
def allAssignments : Nat → List (List Bool)
  | 0 => [[]]
  | n + 1 => (allAssignments n).flatMap (fun a => [a ++ [false], a ++ [true]])

/-- Truth of one DIMACS-style literal under an assignment. -/
def litSat (a : List Bool) (lit : Int) : Bool :=
  if 0 < lit then a.getD (lit.toNat - 1) false
  else if lit < 0 then !(a.getD ((-lit).toNat - 1) false)
  else false

/-- Truth of a clause (a disjunction of literals). -/
def clauseSat (a : List Bool) (c : List Int) : Bool := c.any (litSat a)

/-- Truth of a clause set (a conjunction of clauses). -/
def satAll (a : List Bool) (cs : List (List Int)) : Bool := cs.all (clauseSat a)

/-- Model of the external `boolean-sat` solver: a satisfying assignment
when one exists (which assignment a solver returns is internal to it;
this model returns the first in enumeration order), `none` otherwise. -/
def satSolve (numVars : Nat) (clauses : List (List Int)) : Option (List Bool) :=
  (allAssignments numVars).find? (fun a => satAll a clauses)

/-- `extractSolution` (lines 230-243): every true variable records its
package and version in the selection map (the solution array of the
solver library is 1-indexed with a null slot 0; the model assignment is
0-indexed, so variable `i + 1` is entry `i`). -/
def extractSolution (versionMap : List (Nat × (Str × Str))) (sol : List Bool) :
    List (Str × Str) :=
  (List.range sol.length).foldl
    (fun selected i =>
      if sol.getD i false then
        match lookupN versionMap (i + 1) with
        | some pv => setAssoc selected pv.1 pv.2
        | none => selected
      else selected)
    []

/-- `ResolvedDependency` (satDependencyResolver.ts lines 8-15). -/
structure ResolvedDependency : Type where
  name : Str
  version : Str
  url : Str
  package : NimblePackage
  dependencies : List ResolvedDependency
  installed : Bool

/-- The literal "github.com". -/
def githubLit : Str := "github.com".data

/-- `resolveDependency` (lines 315-368) with its per-run cache threaded
explicitly: URL from the manifest or the registry, the actual package
name fetched from GitHub only for an explicit GitHub URL, the installed
probe, and the solver-selected version with the original constraint as
fallback. -/
def resolveDependency (env : ResolverEnv)
    (cache : List (Str × ResolvedDependency)) (dep : NimbleDependency)
    (selectedVersions : List (Str × Str)) :
    List (Str × ResolvedDependency) × ResolvedDependency :=
  let cacheKey := varKey dep.name dep.version
  match lookupA cache cacheKey with
  | some rd => (cache, rd)
  | none =>
    let hasExplicitUrl := !dep.url.isEmpty
    let url := if !dep.url.isEmpty then dep.url else (env.registryUrl dep.name).getD []
    let actualPackageName :=
      if hasExplicitUrl && !url.isEmpty && containsSub url githubLit then
        (env.githubName url).getD dep.name
      else dep.name
    let installedVersion := getLocalPackageVersion env actualPackageName
    let installed := installedVersion.isSome
    let selectedVersion := (lookupA selectedVersions dep.name).getD dep.version
    let pkg : NimblePackage :=
      { name := some (.str actualPackageName), version := some (.str selectedVersion) }
    let rd : ResolvedDependency :=
      { name := actualPackageName, version := selectedVersion, url := url,
        package := pkg, dependencies := [], installed := installed }
    (setAssoc cache cacheKey rd, rd)

/-- The final loop of `resolve` (lines 93-96): every direct dependency
is resolved in order through the shared cache. -/
def resolveDeps (env : ResolverEnv) (deps : List NimbleDependency)
    (selectedVersions : List (Str × Str)) : List ResolvedDependency :=
  (deps.foldl
    (fun (acc : List (Str × ResolvedDependency) × List ResolvedDependency) dep =>
      let (cache, rd) := resolveDependency env acc.1 dep selectedVersions
      (cache, acc.2 ++ [rd]))
    ([], [])).2

/-- The intermediate encoding produced by `resolve` before the solver
is invoked: the candidate table, the allocation state and the full
clause list (exactly-one groups first, then the per-dependency
requirement clauses, in source order). -/
structure ResolutionSetup : Type where
  allDeps : List (Str × List Str)
  st : SatState
  clauses : List (List Int)
deriving DecidableEq

/-- The clause-building phase of `resolve` (lines 48-77). -/
def resolveSetup (env : ResolverEnv) (pkg : NimblePackage) : ResolutionSetup :=
  let allDeps := collectAllDependencies env pkg
  let (st, baseClauses) := buildVars allDeps
  let conClauses := pkg.dependencies.foldl
    (fun acc dep => acc ++ encodeDependencyConstraints env dep allDeps st.variableMap)
    []
  { allDeps := allDeps, st := st, clauses := baseClauses ++ conClauses }

/-- `SatDependencyResolver.resolve` (lines 36-99): encode, solve, and
decode; no variables means no dependencies to resolve; an unsatisfiable
clause set is the only error (`registry.loadRegistry` failures are only
logged). -/
def resolve (env : ResolverEnv) (pkg : NimblePackage) :
    Except Str (List ResolvedDependency) :=
  let setup := resolveSetup env pkg
  let numVars := setup.st.nextVarId - 1
  if numVars = 0 then .ok []
  else match satSolve numVars setup.clauses with
    | none => .error ("Dependency resolution failed: constraints are unsatisfiable".data)
    | some sol =>
      let selectedVersions := extractSolution setup.st.versionMap sol
      .ok (resolveDeps env pkg.dependencies selectedVersions)

/-! ## Concrete instantiation of the external collaborators

The counterexample runs instantiate `ResolverEnv` with a small concrete
model of the external `Bun.semver` library that is exact on the
dotted-numeral versions the runs touch: a bare `major.minor.patch`
range is satisfied exactly by the equal version, and anything that is
not a dotted numeral triple makes the call throw. -/

/-- A non-empty all-digit numeral. -/
def isNumeral (l : Str) : Bool :=
  !l.isEmpty && l.all (fun c => '0' ≤ c && c ≤ '9')

/-- Numeric value of a digit string. -/
def numVal (l : Str) : Nat :=
  l.foldl (fun acc c => acc * 10 + (c.toNat - '0'.toNat)) 0

/-- A plain `major.minor.patch` semantic version. -/
def isSemverTriple (l : Str) : Bool :=
  match splitOnChar '.' l with
  | [a, b, c] => isNumeral a && isNumeral b && isNumeral c
  | _ => false

/-- The numeric triple of a plain semantic version. -/
def tripleOf (l : Str) : Nat × Nat × Nat :=
  match splitOnChar '.' l with
  | [a, b, c] => (numVal a, numVal b, numVal c)
  | _ => (0, 0, 0)

/-- Concrete model of `Bun.semver.satisfies` for bare-version ranges:
a bare `major.minor.patch` range accepts exactly the numerically equal
version; any other argument shape throws. -/
def bunSatisfiesModel (version range : Str) : Except Unit Bool :=
  if isSemverTriple version && isSemverTriple range then
    .ok (tripleOf version = tripleOf range)
  else .error ()

/-- Lexicographic comparison of numeric version triples. -/
def tripleLt (a b : Nat × Nat × Nat) : Bool :=
  a.1 < b.1 || (a.1 = b.1 && (a.2.1 < b.2.1 || (a.2.1 = b.2.1 && a.2.2 < b.2.2)))

/-- Concrete model of `Bun.semver.order` on plain versions
(0 on incomparable inputs). -/
def bunOrderModel (a b : Str) : Int :=
  if isSemverTriple a && isSemverTriple b then
    if tripleOf a = tripleOf b then 0
    else if tripleLt (tripleOf a) (tripleOf b) then -1 else 1
  else 0

/-- A resolver environment with no local packages, no installed
toolchain, no registry entries and no GitHub access, over the concrete
semver model. -/
def envNoLocal : ResolverEnv :=
  { localVersion := fun _ => none
    nimVersion := none
    semverSatisfies := bunSatisfiesModel
    semverOrder := bunOrderModel
    registryUrl := fun _ => none
    githubName := fun _ => none }

/-- The same environment with an installed toolchain probed at version
2.0.0. -/
def envWithNim : ResolverEnv :=
  { envNoLocal with nimVersion := some ("2.0.0".data) }

/-- A manifest whose only direct dependency is the package "foo" under
the stored constraint "1.0.0" (the parser stores `foo >= 1.0.0` without
the operator). -/
def pkgFooGe1 : NimblePackage :=
  { dependencies := [{ name := "foo".data, version := "1.0.0".data, url := [] }] }

/-- A manifest whose only direct dependency is the toolchain "nim"
under the stored constraint "1.6.0". -/
def pkgNimDep : NimblePackage :=
  { dependencies := [{ name := nimLit, version := "1.6.0".data, url := [] }] }

/-! ## Helper lemmas -/

theorem lookupA_setAssoc_self {α : Type} (l : List (Str × α)) (k : Str) (v : α) :
    lookupA (setAssoc l k v) k = some v := by
  induction l with
  | nil => simp [setAssoc, lookupA]
  | cons p t ih =>
    by_cases h : p.1 = k
    · simp [setAssoc, h, lookupA]
    · simp [setAssoc, h, lookupA, ih]

theorem flushKey_dependencies (st : PState) :
    (flushKey st).dependencies = st.dependencies := by
  cases h : st.currentKey <;> simp [flushKey, h]

theorem flushKey_currentFeature (st : PState) :
    (flushKey st).currentFeature = st.currentFeature := by
  cases h : st.currentKey <;> simp [flushKey, h]

theorem flushKey_features (st : PState) :
    (flushKey st).features = st.features := by
  cases h : st.currentKey <;> simp [flushKey, h]

theorem isPrefixOf_append_self (a b : Str) : a.isPrefixOf (a ++ b) = true := by
  induction a with
  | nil => simp [List.isPrefixOf]
  | cons c t ih => simp [List.isPrefixOf, ih]

theorem containsSub_append_self (a b : Str) : containsSub (a ++ b) a = true := by
  cases hab : a ++ b with
  | nil =>
    have ha : a = [] := by
      cases a with
      | nil => rfl
      | cons x xs => simp at hab
    simp [containsSub, ha, List.isPrefixOf]
  | cons c t =>
    rw [containsSub, ← hab, isPrefixOf_append_self]
    simp

theorem splitGeGo_no_sep (l : Str) : ∀ (fuel : Nat) (acc : Str),
    l.length ≤ fuel →
    (∀ i, i < l.length → sepMatch (l.drop i) = false) →
    splitGeGo fuel acc l = [acc.reverse ++ l] := by
  induction l with
  | nil => intro fuel acc _ _; cases fuel <;> simp [splitGeGo]
  | cons c t ih =>
    intro fuel acc hfuel h
    cases fuel with
    | zero => simp at hfuel
    | succ fuel =>
      have h0 : sepMatch (c :: t) = false := by simpa using h 0 (by simp)
      rw [splitGeGo, h0]
      simp only [Bool.false_eq_true, if_false]
      rw [ih fuel (c :: acc) (by simpa using hfuel)
        (fun i hi => by simpa using h (i + 1) (by simpa using hi))]
      simp

theorem splitGe_no_sep (l : Str)
    (h : ∀ i, i < l.length → sepMatch (l.drop i) = false) :
    splitGe l = [l] := by
  simpa using splitGeGo_no_sep l l.length [] (Nat.le_refl _) h

theorem urlTail_head_none (c : Char) (t : Str)
    (hws : isWs c = false) (hbq : c ≠ bq) (hgt : c ≠ '>') :
    urlTail (c :: t) = none := by
  have hdrop : (c :: t).dropWhile isWs = c :: t := by
    simp [List.dropWhile_cons, hws]
  rw [urlTail]
  simp only [hdrop]
  rw [if_neg hbq]
  rw [urlTailCore]
  have hpre : (">=".data).isPrefixOf (c :: t) = false := by
    show (['>', '='] : Str).isPrefixOf (c :: t) = false
    simp [List.isPrefixOf, Ne.symm hgt]
  simp [hpre]

theorem urlTail_nil : urlTail [] = some none := by
  rw [urlTail]
  simp [List.dropWhile, urlTailCore]

theorem urlTail_ge (v : Str) (hv : v ≠ [])
    (hvh : isWs (v.headD ' ') = false) :
    urlTail (' ' :: '>' :: '=' :: ' ' :: v) = some (some v) := by
  obtain ⟨d, v', rfl⟩ := List.exists_cons_of_ne_nil hv
  have hd : isWs d = false := by simpa using hvh
  have hdrop : (' ' :: '>' :: '=' :: ' ' :: d :: v').dropWhile isWs
      = '>' :: '=' :: ' ' :: d :: v' := by
    simp [List.dropWhile_cons, isWs]
  rw [urlTail]
  simp only [hdrop]
  rw [if_neg (by decide : ('>' : Char) ≠ bq)]
  rw [urlTailCore]
  have hpre : (">=".data).isPrefixOf ('>' :: '=' :: ' ' :: d :: v') = true := by
    show (['>', '='] : Str).isPrefixOf _ = true
    simp [List.isPrefixOf]
  simp only [hpre]
  have hsp : isWs ' ' = true := rfl
  have htake : (' ' :: d :: v').takeWhile isWs = [' '] := by
    simp [List.takeWhile_cons, hsp, hd]
  have hdrop2 : (' ' :: d :: v').dropWhile isWs = d :: v' := by
    simp [List.dropWhile_cons, hsp, hd]
  simp [htake, hdrop2]

theorem urlScan_append (u : Str) : ∀ (pre rest0 : Str) (g : Option Str),
    u ≠ [] → (∀ c ∈ u, isWs c = false ∧ c ≠ bq ∧ c ≠ '>') →
    urlTail rest0 = some g →
    urlScan pre (u ++ rest0) = some (pre.reverse ++ u, g) := by
  induction u with
  | nil => intro _ _ _ h _ _; exact absurd rfl h
  | cons a u' ih =>
    intro pre rest0 g _ hcs ht
    cases u' with
    | nil =>
      rw [List.cons_append, List.nil_append, urlScan, ht]
      simp
    | cons d u'' =>
      have hd := hcs d (by simp)
      have hnone : urlTail ((d :: u'') ++ rest0) = none := by
        rw [List.cons_append]
        exact urlTail_head_none d (u'' ++ rest0) hd.1 hd.2.1 hd.2.2
      rw [List.cons_append, urlScan, hnone]
      have hrec := ih (a :: pre) rest0 g (by simp)
        (fun c hc => hcs c (List.mem_cons_of_mem a hc)) ht
      rw [hrec]
      simp

theorem urlRegexMatch_of (s pre : Str) (g : Option Str)
    (h1 : httpsLit.isPrefixOf s = true)
    (h2 : urlScan [] (s.drop httpsLit.length) = some (pre, g)) :
    urlRegexMatch s = some (httpsLit ++ pre, g) := by
  cases s with
  | nil => simp [httpsLit, List.isPrefixOf] at h1
  | cons c t =>
    rw [urlRegexMatch, if_pos h1, h2]

theorem filterMap_eq_map_of_isSome {α β : Type} (f : α → Option β) (d : β) :
    ∀ l : List α, (∀ a ∈ l, (f a).isSome = true) →
    l.filterMap f = l.map (fun a => (f a).getD d) := by
  intro l
  induction l with
  | nil => intro _; rfl
  | cons a t ih =>
    intro h
    have ha := h a (by simp)
    obtain ⟨b, hb⟩ := Option.isSome_iff_exists.mp ha
    rw [List.filterMap_cons, List.map_cons, hb,
      ih (fun x hx => h x (List.mem_cons_of_mem a hx))]
    simp [hb]

/-! ## Claim theorems -/

/-- The comparison-operator alternation as a substring test. -/
def containsAnyOp (l : Str) : Bool := opList.any (fun op => containsSub l op)

/-- C3: for every requires token whose quoted text embeds a comparison
operator other than a whitespace-isolated `>=` (no occurrence of the
split separator `\s+>=\s+` anywhere in the cleaned non-URL text), the
parser does not decompose it: the produced dependency keeps the full
text as its name and the constraint defaults to the wildcard. -/
theorem unsupported_operator_not_decomposed (dep : Str)
    (hclean : cleanDep dep = dep)
    (hnourl : containsSub dep httpsLit = false)
    (_hop : containsAnyOp dep = true)
    (hnosep : ∀ i, i < dep.length → sepMatch (dep.drop i) = false) :
    parseDependency dep = { name := dep, version := "*".data, url := [] } := by
  have hsplit := splitGe_no_sep dep hnosep
  simp only [parseDependency, hclean, hnourl, Bool.false_eq_true, if_false, hsplit]
  simp

/-- Witness for C3 at the quoted text `nim == 1.6.0` of the claim:
the hypotheses hold and the dependency is literally named
`nim == 1.6.0` with wildcard constraint. -/
theorem unsupported_operator_not_decomposed_witness :
    (cleanDep ("nim == 1.6.0".data) = ("nim == 1.6.0".data) ∧
     containsSub ("nim == 1.6.0".data) httpsLit = false ∧
     containsAnyOp ("nim == 1.6.0".data) = true ∧
     (∀ i, i < ("nim == 1.6.0".data).length →
        sepMatch (("nim == 1.6.0".data).drop i) = false)) ∧
    parseDependency ("nim == 1.6.0".data)
      = { name := "nim == 1.6.0".data, version := "*".data, url := [] } :=
  ⟨⟨by decide, by decide, by decide, by decide⟩,
    unsupported_operator_not_decomposed ("nim == 1.6.0".data)
      (by decide) (by decide) (by decide) (by decide)⟩

/-- C5: parsing the literal two-line manifest fixture yields exactly one
dependency, named nim, with the constraint stored as 1.6.0 without the
operator. -/
theorem requires_roundtrip_fixture :
    (parseContent ("version = \"1.0.0\"\nrequires \"nim >= 1.6.0\"").data).dependencies
      = [{ name := "nim".data, version := "1.6.0".data, url := [] }] := rfl

/-- C7: a requires statement with several comma-separated quoted specs
produces one dependency per spec in left-to-right order: whenever every
comma token yields a quoted spec, the extracted texts are exactly the
per-token extractions in token order (and in the same number); on the
literal fixture the two dependencies come out in order. -/
theorem comma_separated_specs_in_order :
    (∀ depsStr : Str,
      (∀ p ∈ splitOnChar ',' depsStr, (extractSpec p).isSome = true) →
      requiresSpecs depsStr
          = (splitOnChar ',' depsStr).map (fun p => (extractSpec p).getD []) ∧
        (requiresSpecs depsStr).length = (splitOnChar ',' depsStr).length) ∧
    (parseContent ("version = \"1.0.0\"\nrequires \"nim >= 0.19.4\", \"hmac\"").data).dependencies
      = [{ name := "nim".data, version := "0.19.4".data, url := [] },
         { name := "hmac".data, version := "*".data, url := [] }] := by
  refine ⟨fun depsStr h => ?_, rfl⟩
  have hm := filterMap_eq_map_of_isSome extractSpec [] (splitOnChar ',' depsStr) h
  refine ⟨hm, ?_⟩
  rw [requiresSpecs, hm, List.length_map]

/-- Witness for C7 at the comma-separated argument of the fixture line:
both comma tokens carry quoted specs, and the extraction count and
order follow. -/
theorem comma_separated_specs_in_order_witness :
    (∀ p ∈ splitOnChar ',' ("\"nim >= 0.19.4\", \"hmac\"".data),
        (extractSpec p).isSome = true) ∧
    requiresSpecs ("\"nim >= 0.19.4\", \"hmac\"".data)
        = (splitOnChar ',' ("\"nim >= 0.19.4\", \"hmac\"".data)).map
            (fun p => (extractSpec p).getD []) ∧
    (requiresSpecs ("\"nim >= 0.19.4\", \"hmac\"".data)).length
        = (splitOnChar ',' ("\"nim >= 0.19.4\", \"hmac\"".data)).length :=
  ⟨by decide,
    (comma_separated_specs_in_order.1 ("\"nim >= 0.19.4\", \"hmac\"".data) (by decide)).1,
    (comma_separated_specs_in_order.1 ("\"nim >= 0.19.4\", \"hmac\"".data) (by decide)).2⟩

/-- C10: a non-URL dependency text containing no whitespace-isolated
`>=` separator is not split at all (the whole text is the name and the
constraint defaults to the wildcard, as for `nim>=1.6.0`), and the
name/constraint split happens only at the first whitespace-isolated
`>=`, as the two-separator text `pkg >= 1.0 >= 2.0` shows. -/
theorem split_only_at_whitespace_ge :
    (∀ dep : Str, cleanDep dep = dep → containsSub dep httpsLit = false →
      (∀ i, i < dep.length → sepMatch (dep.drop i) = false) →
      parseDependency dep = { name := dep, version := "*".data, url := [] }) ∧
    parseDependency ("pkg >= 1.0 >= 2.0".data)
      = { name := "pkg".data, version := "1.0".data, url := [] } := by
  refine ⟨fun dep hclean hnourl hnosep => ?_, rfl⟩
  have hsplit := splitGe_no_sep dep hnosep
  simp only [parseDependency, hclean, hnourl, Bool.false_eq_true, if_false, hsplit]
  simp

/-- Witness for C10 at the claim text `nim>=1.6.0`: the `>=` is not
whitespace-isolated, so no split happens. -/
theorem split_only_at_whitespace_ge_witness :
    (cleanDep ("nim>=1.6.0".data) = ("nim>=1.6.0".data) ∧
     containsSub ("nim>=1.6.0".data) httpsLit = false ∧
     (∀ i, i < ("nim>=1.6.0".data).length →
        sepMatch (("nim>=1.6.0".data).drop i) = false)) ∧
    parseDependency ("nim>=1.6.0".data)
      = { name := "nim>=1.6.0".data, version := "*".data, url := [] } :=
  ⟨⟨by decide, by decide, by decide⟩,
    split_only_at_whitespace_ge.1 ("nim>=1.6.0".data) (by decide) (by decide) (by decide)⟩

/-- The whitespace-isolated version-suffix separator of a URL
requirement. -/
def geSuffix (v : Str) : Str := ' ' :: '>' :: '=' :: ' ' :: v

/-- C6, general part, with a trailing `>= <version>` suffix: a cleaned
requirement text consisting of a URL (scheme marker, no whitespace, no
backtick, no `>` in the remainder) followed by the suffix parses to the
URL as `sourceUrl`, the suffix version as the constraint, and the name
derived from the final path segment with `.git` and bracketed suffixes
stripped (`urlToName`). -/
theorem url_requirement_with_version (dep u v : Str)
    (hc : cleanDep dep = (httpsLit ++ u) ++ geSuffix v)
    (hu : u ≠ [])
    (hcs : ∀ c ∈ u, isWs c = false ∧ c ≠ bq ∧ c ≠ '>')
    (hv : v ≠ [])
    (hvh : isWs (v.headD ' ') = false) :
    parseDependency dep
      = { name := urlToName (httpsLit ++ u), version := v, url := httpsLit ++ u } := by
  have hts : urlTail (geSuffix v) = some (some v) := urlTail_ge v hv hvh
  have hscan : urlScan [] (u ++ geSuffix v) = some (u, some v) := by
    simpa using urlScan_append u [] (geSuffix v) (some v) hu hcs hts
  have hshape : cleanDep dep = httpsLit ++ (u ++ geSuffix v) := by
    rw [hc, List.append_assoc]
  have hpre : httpsLit.isPrefixOf (cleanDep dep) = true := by
    rw [hshape]; exact isPrefixOf_append_self _ _
  have hdrop : (cleanDep dep).drop httpsLit.length = u ++ geSuffix v := by
    rw [hshape]; exact List.drop_left _ _
  have hmatch : urlRegexMatch (cleanDep dep) = some (httpsLit ++ u, some v) :=
    urlRegexMatch_of _ _ _ hpre (by rw [hdrop]; exact hscan)
  have hcont : containsSub (cleanDep dep) httpsLit = true := by
    rw [hshape]; exact containsSub_append_self _ _
  simp only [parseDependency, hcont, if_true, hmatch]
  simp

/-- C6, general part, without a version suffix: a cleaned requirement
text that is exactly a URL parses to that URL with the wildcard
constraint. -/
theorem url_requirement_without_version (dep u : Str)
    (hc : cleanDep dep = httpsLit ++ u)
    (hu : u ≠ [])
    (hcs : ∀ c ∈ u, isWs c = false ∧ c ≠ bq ∧ c ≠ '>') :
    parseDependency dep
      = { name := urlToName (httpsLit ++ u), version := "*".data, url := httpsLit ++ u } := by
  have hscan : urlScan [] (u ++ []) = some (u, none) :=
    urlScan_append u [] [] none hu hcs urlTail_nil
  have hpre : httpsLit.isPrefixOf (cleanDep dep) = true := by
    rw [hc]; exact isPrefixOf_append_self _ _
  have hdrop : (cleanDep dep).drop httpsLit.length = u := by
    rw [hc]; exact List.drop_left _ _
  have hmatch : urlRegexMatch (cleanDep dep) = some (httpsLit ++ u, none) :=
    urlRegexMatch_of _ _ _ hpre (by rw [hdrop]; simpa using hscan)
  have hcont : containsSub (cleanDep dep) httpsLit = true := by
    rw [hc]; exact containsSub_append_self _ _
  simp only [parseDependency, hcont, if_true, hmatch]
  simp

/-- C6: for every requires statement whose quoted text contains the URL
scheme marker, the parser extracts the URL as `sourceUrl`, takes a
trailing `>= <version>` suffix as the constraint (wildcard when
absent), and derives the name from the final path segment via
`urlToName` (which strips a `.git` suffix and a bracketed suffix); in
particular the literal backtick-URL fixture yields the dependency
pkg / 0.18.9 / the URL. -/
theorem url_requirement_extraction :
    (∀ dep u v : Str,
      cleanDep dep = (httpsLit ++ u) ++ geSuffix v →
      u ≠ [] →
      (∀ c ∈ u, isWs c = false ∧ c ≠ bq ∧ c ≠ '>') →
      v ≠ [] →
      isWs (v.headD ' ') = false →
      parseDependency dep
        = { name := urlToName (httpsLit ++ u), version := v, url := httpsLit ++ u }) ∧
    (∀ dep u : Str,
      cleanDep dep = httpsLit ++ u →
      u ≠ [] →
      (∀ c ∈ u, isWs c = false ∧ c ≠ bq ∧ c ≠ '>') →
      parseDependency dep
        = { name := urlToName (httpsLit ++ u), version := "*".data,
            url := httpsLit ++ u }) ∧
    (parseContent
        ("version = \"1.0.0\"\nrequires \"`https://github.com/user/repo/pkg` >= 0.18.9\"").data).dependencies
      = [{ name := "pkg".data, version := "0.18.9".data,
           url := "https://github.com/user/repo/pkg".data }] :=
  ⟨url_requirement_with_version, url_requirement_without_version, rfl⟩

/-- Witness for C6 at the dependency text produced by the fixture line
(the URL with the trailing suffix, plus the artefact double quote that
the cleaning strips): the hypotheses hold and the parsed dependency is
pkg / 0.18.9 / the URL. -/
theorem url_requirement_extraction_witness :
    (cleanDep ("https://github.com/user/repo/pkg >= 0.18.9\"".data)
        = (httpsLit ++ "github.com/user/repo/pkg".data) ++ geSuffix ("0.18.9".data) ∧
     ("github.com/user/repo/pkg".data ≠ ([] : Str)) ∧
     (∀ c ∈ ("github.com/user/repo/pkg".data : Str),
        isWs c = false ∧ c ≠ bq ∧ c ≠ '>') ∧
     ("0.18.9".data ≠ ([] : Str)) ∧
     isWs (("0.18.9".data : Str).headD ' ') = false) ∧
    parseDependency ("https://github.com/user/repo/pkg >= 0.18.9\"".data)
      = { name := urlToName (httpsLit ++ "github.com/user/repo/pkg".data),
          version := "0.18.9".data,
          url := httpsLit ++ "github.com/user/repo/pkg".data } :=
  ⟨⟨by decide, by decide, by decide, by decide, by decide⟩,
    url_requirement_extraction.1 ("https://github.com/user/repo/pkg >= 0.18.9\"".data)
      ("github.com/user/repo/pkg".data) ("0.18.9".data)
      (by decide) (by decide) (by decide) (by decide) (by decide)⟩

/-- The C4 counterexample manifest: a top-level requires, a feature
header, a feature requires, a top-level key assignment, and another
requires after it. -/
def c4Fixture : Str :=
  ("requires \"a\"\nfeature \"f\":\nrequires \"b\"\nfoo = \"1\"\nrequires \"c\"").data

/-- C4 counterexample: in the fixture, the requires statement that
appears after the `foo = "1"` top-level assignment is appended to the
previously opened feature list (which ends with both b and c), not to
the direct dependency list (which keeps only a) — contradicting the
claim that a feature scope ends at the next top-level statement. -/
theorem feature_scope_counterexample :
    (parseContent c4Fixture).dependencies
      = [{ name := "a".data, version := "*".data, url := [] }] ∧
    lookupA ((parseContent c4Fixture).features.getD []) ("f".data)
      = some [{ name := "b".data, version := "*".data, url := [] },
              { name := "c".data, version := "*".data, url := [] }] :=
  ⟨rfl, rfl⟩

/-- C4 (amended): a feature header scopes every subsequent requires
statement until the next feature header (or end of input): no line
other than a feature header changes the open feature, and a requires
statement processed while a feature is open is appended to that feature
list, leaving the direct dependency list unchanged. -/
theorem feature_scope_persists :
    (∀ (st : PState) (l : Str), featureMatch (jsTrim l) = none →
      (pstep st l).currentFeature = st.currentFeature) ∧
    (∀ (st : PState) (l f ds : Str), st.currentFeature = some f →
      requiresMatch (jsTrim l) = some ds →
      lookupA (pstep st l).features f
          = some ((lookupA st.features f).getD [] ++ requiresSpecs ds) ∧
        (pstep st l).dependencies = st.dependencies) := by
  constructor
  · intro st l hf
    cases hr : requiresMatch (jsTrim l) with
    | some ds =>
      cases hcf : st.currentFeature <;> simp [pstep, hr, hcf]
    | none =>
      cases hk : kvMatch (jsTrim l) with
      | some kv =>
        simp [pstep, hr, hf, hk, flushKey_currentFeature]
      | none =>
        cases hck : st.currentKey <;> simp [pstep, hr, hf, hk, hck]
  · intro st l f ds hcf hr
    constructor
    · simp [pstep, hr, hcf, pushFeature, lookupA_setAssoc_self]
    · simp [pstep, hr, hcf]

/-- Witness for C4 (amended): a key assignment line leaves the feature
f open, and a requires line processed under the open feature f appends
to that feature and leaves the direct list unchanged. -/
theorem feature_scope_persists_witness :
    (featureMatch (jsTrim ("foo = \"1\"".data)) = none ∧
     (pstep { currentFeature := some ("f".data) } ("foo = \"1\"".data)).currentFeature
       = some ("f".data)) ∧
    (({ currentFeature := some ("f".data) } : PState).currentFeature = some ("f".data) ∧
     requiresMatch (jsTrim ("requires \"c\"".data)) = some ("\"c\"".data) ∧
     lookupA (pstep { currentFeature := some ("f".data) } ("requires \"c\"".data)).features
         ("f".data) = some ["c".data] ∧
     (pstep { currentFeature := some ("f".data) } ("requires \"c\"".data)).dependencies
       = []) :=
  ⟨⟨by decide,
     (feature_scope_persists.1 { currentFeature := some ("f".data) }
       ("foo = \"1\"".data) (by decide)).trans rfl⟩,
   ⟨rfl, by decide,
     (feature_scope_persists.2 { currentFeature := some ("f".data) }
       ("requires \"c\"".data) ("f".data) ("\"c\"".data) rfl (by decide)).1.trans rfl,
     (feature_scope_persists.2 { currentFeature := some ("f".data) }
       ("requires \"c\"".data) ("f".data) ("\"c\"".data) rfl (by decide)).2.trans rfl⟩⟩

/-- The C8 fixture: one top-level requires followed by a feature block
with two specs. -/
def c8Fixture : Str :=
  ("version = \"1.0.0\"\nrequires \"nim >= 1.0.0\"\n\nfeature \"extra\":\n  requires \"jsony >= 1.0.0\", \"cligen\"").data

/-- C8: feature-scoped requires statements leave the direct dependency
list unchanged — processing any line while a feature is open never
touches the direct list, and on the fixture the parse yields exactly
one direct dependency while the extra feature holds its two specs. -/
theorem feature_requires_frame :
    (∀ (st : PState) (l : Str) (f : Str), st.currentFeature = some f →
      (pstep st l).dependencies = st.dependencies) ∧
    ((parseContent c8Fixture).dependencies
        = [{ name := "nim".data, version := "1.0.0".data, url := [] }] ∧
     lookupA ((parseContent c8Fixture).features.getD []) ("extra".data)
        = some [{ name := "jsony".data, version := "1.0.0".data, url := [] },
                { name := "cligen".data, version := "*".data, url := [] }]) := by
  refine ⟨fun st l f hcf => ?_, rfl, rfl⟩
  cases hr : requiresMatch (jsTrim l) with
  | some ds => simp [pstep, hr, hcf]
  | none =>
    cases hfm : featureMatch (jsTrim l) with
    | some fn => simp [pstep, hr, hfm, flushKey_dependencies]
    | none =>
      cases hk : kvMatch (jsTrim l) with
      | some kv => simp [pstep, hr, hfm, hk, flushKey_dependencies]
      | none => cases hck : st.currentKey <;> simp [pstep, hr, hfm, hk, hck]

/-- Witness for C8: a requires line processed with the feature extra
open leaves the (empty) direct dependency list unchanged. -/
theorem feature_requires_frame_witness :
    ({ currentFeature := some ("extra".data) } : PState).currentFeature
        = some ("extra".data) ∧
    (pstep { currentFeature := some ("extra".data) }
        ("requires \"jsony >= 1.0.0\", \"cligen\"".data)).dependencies = [] :=
  ⟨rfl,
    (feature_requires_frame.1 { currentFeature := some ("extra".data) }
      ("requires \"jsony >= 1.0.0\", \"cligen\"".data) ("extra".data) rfl).trans rfl⟩

/-- The resolved output of the C1 counterexample run: the sentinel
candidate 0.0.0 is selected even though the constraint 1.0.0 accepts no
candidate. -/
def fooResolved : ResolvedDependency :=
  { name := "foo".data, version := "0.0.0".data, url := [],
    package := { name := some (.str ("foo".data)),
                 version := some (.str ("0.0.0".data)) },
    dependencies := [], installed := false }

/-- C1 counterexample: with the package foo whose only candidate is the
sentinel 0.0.0 and the stored requirement 1.0.0 (from `foo >= 1.0.0`),
the satisfying candidate subset is empty, yet `resolve` raises no error
at all — it succeeds and selects 0.0.0 — contradicting the claim that a
NoCandidateError is raised before the solver runs. -/
theorem no_candidate_error_counterexample :
    ((lookupA (resolveSetup envNoLocal pkgFooGe1).allDeps ("foo".data)).getD []).filter
        (fun v => rangeSatisfied envNoLocal v ("1.0.0".data)) = [] ∧
    resolve envNoLocal pkgFooGe1 = .ok [fooResolved] :=
  ⟨rfl, rfl⟩

/-- C1 (amended): when a direct dependency has no candidate version
satisfying its range, the resolver does not fail: it simply emits no
requirement clause for that dependency and resolution proceeds to the
solver, which may succeed — on the 0.0.0-candidate / 1.0.0-requirement
input, `resolve` returns the sentinel selection and no error. -/
theorem empty_candidate_subset_emits_no_clause :
    (∀ (env : ResolverEnv) (dep : NimbleDependency)
        (allDeps : List (Str × List Str)) (vm : List (Str × Nat)),
      dep.name ≠ nimLit →
      ((lookupA allDeps dep.name).getD []).filter
          (fun v => rangeSatisfied env v dep.version) = [] →
      encodeDependencyConstraints env dep allDeps vm = []) ∧
    resolve envNoLocal pkgFooGe1 = .ok [fooResolved] := by
  refine ⟨fun env dep allDeps vm hne hfil => ?_, rfl⟩
  simp only [encodeDependencyConstraints, if_neg hne, hfil]
  simp

/-- Witness for C1 (amended) at the counterexample data: the package
foo is not the toolchain, its satisfying subset is empty, and no
requirement clause is emitted. -/
theorem empty_candidate_subset_emits_no_clause_witness :
    (({ name := "foo".data, version := "1.0.0".data, url := [] } :
        NimbleDependency).name ≠ nimLit ∧
     ((lookupA [(("foo".data : Str), (["0.0.0".data] : List Str))]
          ("foo".data)).getD []).filter
        (fun v => rangeSatisfied envNoLocal v
          ({ name := "foo".data, version := "1.0.0".data, url := [] } :
            NimbleDependency).version) = [] ∧
     resolve envNoLocal pkgFooGe1 = .ok [fooResolved]) ∧
    encodeDependencyConstraints envNoLocal
        { name := "foo".data, version := "1.0.0".data, url := [] }
        [(("foo".data : Str), (["0.0.0".data] : List Str))] [] = [] :=
  ⟨⟨by decide, by decide, empty_candidate_subset_emits_no_clause.2⟩,
    empty_candidate_subset_emits_no_clause.1 envNoLocal
      { name := "foo".data, version := "1.0.0".data, url := [] }
      [(("foo".data : Str), (["0.0.0".data] : List Str))] []
      (by decide) (by decide)⟩

/-- The resolved output of the C2 counterexample run: the toolchain
dependency resolves to the probed toolchain version. -/
def nimResolved : ResolvedDependency :=
  { name := nimLit, version := "2.0.0".data, url := [],
    package := { name := some (.str nimLit),
                 version := some (.str ("2.0.0".data)) },
    dependencies := [], installed := true }

/-- C2 counterexample: with a manifest requiring nim and the toolchain
probed at 2.0.0, `resolve` does allocate the SAT entry nim@2.0.0 in the
variable table, and the clause set contains the unit clause over that
variable — contradicting the claim that no (nim, version) entry is
allocated and no clause refers to it. -/
theorem nim_variable_allocated_counterexample :
    lookupA (resolveSetup envWithNim pkgNimDep).st.variableMap
        (varKey nimLit ("2.0.0".data)) = some 1 ∧
    lookupN (resolveSetup envWithNim pkgNimDep).st.versionMap 1
        = some (nimLit, "2.0.0".data) ∧
    (resolveSetup envWithNim pkgNimDep).clauses = [[(1 : Int)]] :=
  ⟨rfl, rfl, rfl⟩

/-- C2 (amended): the toolchain dependency is allocated candidate
variables and an exactly-one clause like any other package, but the
requirement-encoding stage emits no clause for it — regardless of the
probed toolchain version or of the outcome of the version check, which
only logs — so the toolchain requirement can never make the clause set
unsatisfiable; on the concrete run resolution succeeds. -/
theorem nim_requirement_never_blocks :
    (∀ (env : ResolverEnv) (dep : NimbleDependency)
        (allDeps : List (Str × List Str)) (vm : List (Str × Nat)),
      dep.name = nimLit →
      encodeDependencyConstraints env dep allDeps vm = []) ∧
    (lookupA (resolveSetup envWithNim pkgNimDep).st.variableMap
        (varKey nimLit ("2.0.0".data)) = some 1 ∧
     resolve envWithNim pkgNimDep = .ok [nimResolved]) := by
  refine ⟨fun env dep allDeps vm h => ?_, rfl, rfl⟩
  simp [encodeDependencyConstraints, h]

/-- Witness for C2 (amended) at a toolchain dependency under an
arbitrary concrete environment: no requirement clause is emitted. -/
theorem nim_requirement_never_blocks_witness :
    (({ name := nimLit, version := "1.6.0".data, url := [] } :
        NimbleDependency).name = nimLit) ∧
    encodeDependencyConstraints envWithNim
        { name := nimLit, version := "1.6.0".data, url := [] }
        [((nimLit : Str), (["2.0.0".data] : List Str))]
        [((varKey nimLit ("2.0.0".data) : Str), (1 : Nat))] = [] :=
  ⟨rfl,
    nim_requirement_never_blocks.1 envWithNim
      { name := nimLit, version := "1.6.0".data, url := [] }
      [((nimLit : Str), (["2.0.0".data] : List Str))]
      [((varKey nimLit ("2.0.0".data) : Str), (1 : Nat))] rfl⟩

/-- C9: the candidate filter of the resolver falls back to exact string
equality when the external semantic-version comparison throws (the case
of versions that are not valid semantic-version syntax), and the
wildcard and empty constraints accept every candidate. -/
theorem range_satisfaction_fallback :
    (∀ (env : ResolverEnv) (v range : Str),
      range ≠ "*".data → range ≠ [] →
      env.semverSatisfies v range = .error () →
      rangeSatisfied env v range = decide (v = range)) ∧
    (∀ (env : ResolverEnv) (v : Str),
      rangeSatisfied env v ("*".data) = true ∧ rangeSatisfied env v [] = true) := by
  constructor
  · intro env v range h1 h2 herr
    simp [rangeSatisfied, h1, h2, herr]
  · intro env v
    constructor <;> simp [rangeSatisfied]

/-- Witness for C9 at the non-semver pair abc / abc under the concrete
environment: the comparison throws and string equality accepts. -/
theorem range_satisfaction_fallback_witness :
    (("abc".data : Str) ≠ "*".data ∧ ("abc".data : Str) ≠ [] ∧
     envNoLocal.semverSatisfies ("abc".data) ("abc".data) = .error ()) ∧
    rangeSatisfied envNoLocal ("abc".data) ("abc".data) = true :=
  ⟨⟨by decide, by decide, rfl⟩,
    (range_satisfaction_fallback.1 envNoLocal ("abc".data) ("abc".data)
      (by decide) (by decide) rfl).trans (by decide)⟩
